import Mathlib

/-!
Verification of the Plan / Action execution engine of nix-installer
(src/src/plan.rs, src/src/actions/mod.rs) against its specification.

The engine's data and control flow are embedded shallowly:

* `Version`, the semver crate's evaluation rules, and `ensure_version`
  (src/src/plan.rs lines 377-401) model the version gate applied when a
  plan is deserialized.  `ensure_version` feeds the rendered plan version
  back through the semver requirement parser, which attaches the crate's
  default operator; build metadata plays no role in the claims and is not
  modelled.
* `StatefulAction`, `tryExecute` and `tryRevert` model the three-state
  lifecycle wrapper.  The wrapper's own source file is not among the
  provided sources, so those two functions are modelled from the spec, as
  marked in their doc comments.
* `installGo` / `uninstallGo` model the two driver loops of `InstallPlan`
  (src/src/plan.rs lines 142-212 and 291-361), including the cancellation
  probe, receipt checkpoints, and error aggregation.  Filesystem writes
  and the broadcast channel are explicit environment parameters; the
  tracing and optional diagnostics side channels are not modelled.
* `describe_install` / `describe_uninstall` model the renderers
  (src/src/plan.rs lines 68-140 and 215-289); `owo_colors` bold styling is
  reproduced byte for byte, and Rust's stable `Vec::sort` on the rendered
  lines is modelled by the (equally stable) insertion sort.
-/

namespace NixInstaller

/-- A pre-release identifier of a semantic version: numeric or alphanumeric
(the semver crate's `Identifier`). -/
inductive PreId where
  | num (n : Nat)
  | str (s : String)
deriving DecidableEq, Repr

/-- A semantic version `major.minor.patch[-pre]` as in the semver crate.
Build metadata does not participate in any matching rule used by the engine
and is not modelled. -/
structure Version where
  major : Nat
  minor : Nat
  patch : Nat
  pre : List PreId := []
deriving DecidableEq, Repr

/-- Ordering of two pre-release identifiers, from the semver crate: numeric
identifiers sort below alphanumeric ones, numeric compare as numbers,
alphanumeric compare lexically. -/
def PreId.comp : PreId → PreId → Ordering
  | .num a, .num b => compare a b
  | .num _, .str _ => .lt
  | .str _, .num _ => .gt
  | .str a, .str b => if a < b then .lt else if b < a then .gt else .eq

/-- Lexicographic comparison of identifier lists; a strict prefix sorts
first. -/
def preListComp : List PreId → List PreId → Ordering
  | [], [] => .eq
  | [], _ :: _ => .lt
  | _ :: _, [] => .gt
  | a :: as, b :: bs =>
    match a.comp b with
    | .eq => preListComp as bs
    | o => o

/-- Comparison of two pre-release components as in the semver crate: the
empty pre-release (a normal release) has higher precedence than any
non-empty one; otherwise identifiers are compared lexicographically. -/
def preComp (a b : List PreId) : Ordering :=
  match a, b with
  | [], [] => .eq
  | [], _ :: _ => .gt
  | _ :: _, [] => .lt
  | _, _ => preListComp a b

/-- The semver crate's caret (default-operator) comparator matching, for a
comparator carrying major, minor and patch (as produced by rendering a full
version).  Transcribed from semver's eval.rs `matches_caret`. -/
def matchesCaret (cmp ver : Version) : Bool :=
  if ver.major ≠ cmp.major then false
  else if ver.minor ≠ cmp.minor then
    if 0 < cmp.major then decide (cmp.minor < ver.minor) else false
  else if ver.patch ≠ cmp.patch then
    if 0 < cmp.major then decide (cmp.patch < ver.patch)
    else if 0 < cmp.minor then decide (cmp.patch < ver.patch)
    else false
  else preComp ver.pre cmp.pre ≠ .lt

/-- The semver crate's exact (`=`) comparator matching for a comparator
carrying major, minor and patch.  Transcribed from semver's eval.rs
`matches_exact`. -/
def matchesExact (cmp ver : Version) : Bool :=
  ver.major == cmp.major && ver.minor == cmp.minor &&
    ver.patch == cmp.patch && ver.pre == cmp.pre

/-- The semver crate's `matches_req` for a requirement consisting of one
comparator with major, minor and patch present: the comparator must match,
and a pre-release version additionally requires the comparator to name the
same triple with a non-empty pre-release. -/
def reqMatches (matchesOp : Version → Version → Bool) (cmp ver : Version) : Bool :=
  matchesOp cmp ver &&
    (ver.pre.isEmpty ||
      (cmp.major == ver.major && cmp.minor == ver.minor &&
        cmp.patch == ver.patch && !cmp.pre.isEmpty))

/-- Renders a pre-release component the way the semver crate's Display
does. -/
def preToString : List PreId → String
  | [] => ""
  | ps =>
    "-" ++ String.intercalate "."
      (ps.map fun p => match p with | .num n => toString n | .str s => s)

/-- Renders a version the way the semver crate's Display does (no build
metadata in the model). -/
def versionToString (v : Version) : String :=
  toString v.major ++ "." ++ toString v.minor ++ "." ++ toString v.patch ++
    preToString v.pre

/-- ensure_version from src/src/plan.rs lines 382-401: the deserializer
hook re-parses the rendered plan version as a `VersionReq`.  That rendered
requirement carries no operator, so the semver crate attaches its default
(caret) operator; the plan is accepted exactly when the engine's own
version satisfies the resulting caret requirement. -/
def ensure_version (nix_installer_version plan_version : Version) :
    Except String Version :=
  if reqMatches matchesCaret plan_version nix_installer_version then
    .ok plan_version
  else
    .error ("This version of nix-installer (" ++
      versionToString nix_installer_version ++
      ") is not compatible with this plan's version (" ++
      versionToString plan_version ++ ")")

/-- Modelled from the spec: the spec's version gate, which claims the
reader constructs the requirement literally equal to an equals-sign
followed by the plan version, i.e. the semver exact operator.  Kept
side by side with `ensure_version` (the code's gate) for comparison. -/
def spec_ensure_version (nix_installer_version plan_version : Version) :
    Except String Version :=
  if reqMatches matchesExact plan_version nix_installer_version then
    .ok plan_version
  else
    .error ("This version of nix-installer (" ++
      versionToString nix_installer_version ++
      ") is not compatible with this plan's version (" ++
      versionToString plan_version ++ ")")

/-- ActionState from src/src/actions/mod.rs lines 34-40. -/
inductive ActionState where
  | Completed
  | Progress
  | Uncompleted
deriving DecidableEq, Repr

/-- ActionDescription from src/src/actions/mod.rs lines 42-47. -/
structure ActionDescription where
  description : String
  explanation : List String
deriving DecidableEq, Repr

/-- Model of one opaque boxed action as the engine sees it: its synopsis and
describe lists, plus the outcome its underlying execute/revert would produce
if invoked during the run under consideration.  Underlying errors are drawn
from Nat; `none` stands for success. -/
structure ActionModel where
  synopsis : String
  describe_execute : List ActionDescription
  describe_revert : List ActionDescription
  executeOutcome : Option Nat
  revertOutcome : Option Nat
deriving DecidableEq, Repr

/-- StatefulAction: an action paired with its lifecycle state. -/
structure StatefulAction where
  action : ActionModel
  state : ActionState
deriving DecidableEq, Repr

/-- Modelled from the spec: `StatefulAction::try_execute` (the StatefulAction
implementation file is not among the provided sources).  A no-op on a
Completed action; otherwise it invokes the underlying execute, sets the
state to Completed on success, and on failure surfaces the error leaving
the state unchanged. -/
def tryExecute (sa : StatefulAction) : Option Nat × StatefulAction :=
  match sa.state with
  | .Completed => (none, sa)
  | _ =>
    match sa.action.executeOutcome with
    | none => (none, { sa with state := .Completed })
    | some e => (some e, sa)

/-- Modelled from the spec: `StatefulAction::try_revert`.  A no-op on an
Uncompleted action; otherwise it invokes the underlying revert, sets the
state to Uncompleted on success, and on failure surfaces the error leaving
the state unchanged. -/
def tryRevert (sa : StatefulAction) : Option Nat × StatefulAction :=
  match sa.state with
  | .Uncompleted => (none, sa)
  | _ =>
    match sa.action.revertOutcome with
    | none => (none, { sa with state := .Uncompleted })
    | some e => (some e, sa)

/-- The plan's metadata: its version and the retained planner, the latter
modelled through the planner interface the engine consumes (tag, full
settings, user-configured settings). -/
structure PlanMeta where
  version : Version
  plannerTag : String
  plannerSettings : List (String × String)
  plannerConfigured : List (String × String)
deriving DecidableEq, Repr

/-- InstallPlan from src/src/plan.rs lines 19-30: metadata plus the ordered
action list.  The optional diagnostics payload is not modelled. -/
structure InstallPlan extends PlanMeta where
  actions : List StatefulAction
deriving DecidableEq, Repr

/-- Reassembles a plan from metadata and a current action list, as
`self.clone()` does at a receipt checkpoint. -/
def PlanMeta.withActions (m : PlanMeta) (as : List StatefulAction) : InstallPlan :=
  { toPlanMeta := m, actions := as }

/-- NixInstallerError, restricted to the variants the engine itself
produces (src/src/plan.rs).  Underlying action errors are Nats, io errors
are Nats. -/
inductive NixInstallerError where
  | Action (e : Nat)
  | ActionRevert (es : List Nat)
  | Cancelled
  | RecordingReceipt (path : String) (e : Nat)
  | SerializingReceipt (e : Nat)
deriving DecidableEq, Repr

/-- Outcome of one non-blocking `try_recv` on the tokio broadcast channel:
a delivered value, or the `Empty`, `Closed`, `Lagged` error variants. -/
inductive TryRecvResult where
  | value
  | empty
  | closed
  | lagged
deriving DecidableEq, Repr

/-- The run's environment: the outcome of the i-th cancellation poll, and
the outcomes of the `create_dir_all` and `fs::write` calls inside
`write_receipt` (`none` = success, `some e` = io error e). -/
structure Env where
  polls : Nat → TryRecvResult
  createDirOutcome : Option Nat
  writeOutcome : Option Nat

/-- The bit of filesystem state the engine touches: whether /nix exists and
the content of the receipt file, if present. -/
structure Fs where
  nixDirExists : Bool
  receipt : Option String
deriving DecidableEq, Repr

/-- RECEIPT_LOCATION from src/src/plan.rs line 13. -/
def RECEIPT_LOCATION : String := "/nix/receipt.json"

/-- Serialization of one stateful action inside the receipt.  The JSON
bodies of the opaque action payloads live outside the provided sources;
each action is rendered through its synopsis and its lifecycle state, which
is the part the receipt claims concern. -/
def serializeAction (sa : StatefulAction) : String :=
  "\x7b \x22action\x22: \x22" ++ sa.action.synopsis ++ "\x22, \x22state\x22: \x22" ++
    (match sa.state with
     | .Completed => "Completed"
     | .Progress => "Progress"
     | .Uncompleted => "Uncompleted") ++ "\x22 \x7d"

/-- Model of `serde_json::to_string_pretty` on the plan: a pretty-printed
object rendering the version, the planner tag and every action with its
lifecycle state.  Produces no trailing newline; `write_receipt` appends the
single newline itself. -/
def serializePlan (p : InstallPlan) : String :=
  "\x7b\n  \x22version\x22: \x22" ++ versionToString p.version ++
    "\x22,\n  \x22planner\x22: \x22" ++ p.plannerTag ++
    "\x22,\n  \x22actions\x22: [\n    " ++
    String.intercalate ",\n    " (p.actions.map serializeAction) ++
    "\n  ]\n\x7d"

/-- write_receipt from src/src/plan.rs lines 364-375: ensure /nix exists,
encode the plan, write the encoding plus a trailing newline to
RECEIPT_LOCATION, wrapping io failures in RecordingReceipt.  (The encoding
step cannot fail in the model, so SerializingReceipt is never produced.) -/
def write_receipt (env : Env) (plan : InstallPlan) (fs : Fs) :
    Except NixInstallerError Unit × Fs :=
  match env.createDirOutcome with
  | some e => (.error (.RecordingReceipt "/nix" e), fs)
  | none =>
    let fs1 : Fs := { fs with nixDirExists := true }
    match env.writeOutcome with
    | some e => (.error (.RecordingReceipt RECEIPT_LOCATION e), fs1)
    | none => (.ok (), { fs1 with receipt := some (serializePlan plan ++ "\n") })

/-- One observable step of a run: a cancellation poll before the action at
the given index, a try_execute on it, or a try_revert on it. -/
inductive Event where
  | poll (i : Nat)
  | exec (i : Nat)
  | revert (i : Nat)
deriving DecidableEq, Repr

/-- The outcome of an install or uninstall run: the returned result, the
plan's action list as left behind, the filesystem, and the event trace. -/
structure RunResult where
  result : Except NixInstallerError Unit
  actions : List StatefulAction
  fs : Fs
  trace : List Event
deriving Repr

/-- The loop of InstallPlan::install (src/src/plan.rs lines 142-212),
processing the remaining actions `rest`; `done` is the already-processed
prefix in order.  `hasCh` records whether a cancel channel was supplied;
the i-th poll of the channel yields `env.polls i`, and exactly one poll has
happened per processed action, so the next poll index is `done.length`.
Per source: poll (non-blockingly) before each action and return Cancelled
on any result other than an empty open channel, checkpointing a receipt
first (a failed checkpoint is only logged); then try_execute the action,
and on failure checkpoint a receipt (failure again only logged) and return
the error wrapped in Action; after the last action write the receipt,
propagating its failure, and return Ok. -/
def installGo (env : Env) (meta : PlanMeta) (hasCh : Bool) :
    (done rest : List StatefulAction) → Fs → RunResult
  | done, [], fs =>
    match write_receipt env (meta.withActions done) fs with
    | (.error e, fs1) => ⟨.error e, done, fs1, []⟩
    | (.ok _, fs1) => ⟨.ok (), done, fs1, []⟩
  | done, a :: rest, fs =>
    if hasCh = true ∧ env.polls done.length ≠ .empty then
      let fs1 := (write_receipt env (meta.withActions (done ++ a :: rest)) fs).2
      ⟨.error .Cancelled, done ++ a :: rest, fs1, [.poll done.length]⟩
    else
      let polled : List Event := if hasCh then [.poll done.length] else []
      match tryExecute a with
      | (some e, a1) =>
        let fs1 := (write_receipt env (meta.withActions (done ++ a1 :: rest)) fs).2
        ⟨.error (.Action e), done ++ a1 :: rest, fs1,
          polled ++ [.exec done.length]⟩
      | (none, a1) =>
        let r := installGo env meta hasCh (done ++ [a1]) rest fs
        { r with trace := polled ++ .exec done.length :: r.trace }

/-- InstallPlan::install on a plan: run the loop from the start.  `hasCh`
models whether the `impl Into<Option<Receiver>>` argument was a channel. -/
def install (env : Env) (plan : InstallPlan) (hasCh : Bool) (fs : Fs) : RunResult :=
  installGo env plan.toPlanMeta hasCh [] plan.actions fs

/-- The loop of InstallPlan::uninstall (src/src/plan.rs lines 291-361),
walking the actions in reverse.  `revRest` holds the not-yet-visited
actions in visit order (i.e. the reverse of their plan order), `done` the
already-visited actions back in plan order, and `errors` the revert errors
collected so far.  Per source: poll before each action exactly as install
does; then try_revert the action, appending a failure to `errors` and
continuing; after the walk return Ok if no errors were collected and
ActionRevert with the collected list otherwise — no receipt is written
outside the cancellation branch. -/
def uninstallGo (env : Env) (meta : PlanMeta) (hasCh : Bool) :
    (revRest done : List StatefulAction) → List Nat → Fs → RunResult
  | [], done, errors, fs =>
    if errors.isEmpty then ⟨.ok (), done, fs, []⟩
    else ⟨.error (.ActionRevert errors), done, fs, []⟩
  | a :: revRest, done, errors, fs =>
    if hasCh = true ∧ env.polls done.length ≠ .empty then
      let current := (a :: revRest).reverse ++ done
      let fs1 := (write_receipt env (meta.withActions current) fs).2
      ⟨.error .Cancelled, current, fs1, [.poll done.length]⟩
    else
      let polled : List Event := if hasCh then [.poll done.length] else []
      let (res, a1) := tryRevert a
      let errors1 := match res with | some e => errors ++ [e] | none => errors
      let r := uninstallGo env meta hasCh revRest (a1 :: done) errors1 fs
      { r with trace := polled ++ .revert revRest.length :: r.trace }

/-- InstallPlan::uninstall on a plan: walk the actions in reverse. -/
def uninstall (env : Env) (plan : InstallPlan) (hasCh : Bool) (fs : Fs) : RunResult :=
  uninstallGo env plan.toPlanMeta hasCh plan.actions.reverse [] [] fs

/-- The bold styling `owo_colors` applies to a setting key in the rendered
settings lines. -/
def boldStr (s : String) : String := "\x1b[1m" ++ s ++ "\x1b[0m"

/-- One rendered settings line, from the format string at
src/src/plan.rs line 85: star, space, bolded key, colon, space, value. -/
def settingLine (kv : String × String) : String :=
  "* " ++ boldStr kv.1 ++ ": " ++ kv.2

/-- The settings lines as rendered and then sorted
(src/src/plan.rs lines 83-88): the formatted lines themselves are sorted as
strings with Rust's stable `Vec::sort`, modelled by the stable insertion
sort. -/
def sortedSettingLines (settings : List (String × String)) : List String :=
  List.insertionSort (· ≤ ·) (settings.map settingLine)

/-- One rendered action description: star, space, description, and in
explain mode each explanation line indented on its own line. -/
def renderDescription (explain : Bool) (d : ActionDescription) : String :=
  "* " ++ d.description ++
    (if explain then String.join (d.explanation.map fun l => "\n  " ++ l) else "")

/-- The rendered action block: one rendered description per line. -/
def renderActions (explain : Bool) (ds : List ActionDescription) : String :=
  String.intercalate "\n" (ds.map (renderDescription explain))

/-- describe_install from src/src/plan.rs lines 68-140.  In explain mode
all planner settings are listed, otherwise only the user-configured ones;
the sorted lines form the settings block, which is omitted — and the
header suffixed with a default-settings note — when there are none. -/
def describe_install (plan : InstallPlan) (explain : Bool) : String :=
  let lines := sortedSettingLines
    (if explain then plan.plannerSettings else plan.plannerConfigured)
  "Nix install plan (v" ++ versionToString plan.version ++ ")\n" ++
    "Planner: " ++ plan.plannerTag ++
    (if lines.isEmpty then " (with default settings)" else "") ++ "\n\n" ++
    (if lines.isEmpty then ""
     else "Configured settings:\n" ++ String.intercalate "\n" lines ++ "\n\n") ++
    "Planned actions:\n" ++
    renderActions explain (plan.actions.map (fun a => a.action.describe_execute)).flatten ++
    "\n"

/-- describe_uninstall from src/src/plan.rs lines 215-289.  Same shape as
describe_install (with an extra blank line after the header and the word
uninstall), but the actions are walked in reverse and described by their
revert descriptions. -/
def describe_uninstall (plan : InstallPlan) (explain : Bool) : String :=
  let lines := sortedSettingLines
    (if explain then plan.plannerSettings else plan.plannerConfigured)
  "Nix uninstall plan (v" ++ versionToString plan.version ++ ")\n\n" ++
    "Planner: " ++ plan.plannerTag ++
    (if lines.isEmpty then " (with default settings)" else "") ++ "\n\n" ++
    (if lines.isEmpty then ""
     else "Configured settings:\n" ++ String.intercalate "\n" lines ++ "\n\n") ++
    "Planned actions:\n" ++
    renderActions explain
      (plan.actions.reverse.map (fun a => a.action.describe_revert)).flatten ++
    "\n"

/-- The action with its lifecycle state set to Completed, the result of a
successful try_execute. -/
def executed (sa : StatefulAction) : StatefulAction := { sa with state := .Completed }

/-- try_execute returns Ok on this action: it is already Completed (no-op)
or its underlying execute succeeds. -/
def execSucceeds (sa : StatefulAction) : Prop :=
  sa.state = .Completed ∨ sa.action.executeOutcome = none

instance (sa : StatefulAction) : Decidable (execSucceeds sa) := by
  unfold execSucceeds; infer_instance

/-- The action as try_revert leaves it. -/
def reverted (sa : StatefulAction) : StatefulAction := (tryRevert sa).2

/-- The revert errors try_revert surfaces along a visit order. -/
def collectRevertErrors (l : List StatefulAction) : List Nat :=
  l.filterMap fun sa => (tryRevert sa).1

/-- The trace of a run segment that polls (when a channel is present) and
then executes, action by action, at indices start, start+1, ... -/
def stepTrace (hasCh : Bool) (start n : Nat) : List Event :=
  match n with
  | 0 => []
  | n + 1 =>
    (if hasCh then [Event.poll start] else []) ++
      Event.exec start :: stepTrace hasCh (start + 1) n

/-- Indices of the try_execute invocations recorded in a trace. -/
def execIndices (tr : List Event) : List Nat :=
  tr.filterMap fun e => match e with | .exec i => some i | _ => none

/-- Indices of the try_revert invocations recorded in a trace. -/
def revertIndices (tr : List Event) : List Nat :=
  tr.filterMap fun e => match e with | .revert i => some i | _ => none

theorem tryExecute_eq_of_succeeds (sa : StatefulAction) (h : execSucceeds sa) :
    tryExecute sa = (none, executed sa) := by
  rcases sa with ⟨act, st⟩
  rcases h with h | h <;> cases st <;> simp_all [tryExecute, executed]

theorem tryExecute_eq_of_fails (sa : StatefulAction) (e : Nat)
    (h1 : sa.state ≠ .Completed) (h2 : sa.action.executeOutcome = some e) :
    tryExecute sa = (some e, sa) := by
  rcases sa with ⟨act, st⟩
  cases st <;> simp_all [tryExecute]

theorem installGo_nil (env : Env) (meta : PlanMeta) (hasCh : Bool)
    (done : List StatefulAction) (fs : Fs) :
    installGo env meta hasCh done [] fs =
      ⟨(write_receipt env (meta.withActions done) fs).1, done,
        (write_receipt env (meta.withActions done) fs).2, []⟩ := by
  rcases h : write_receipt env (meta.withActions done) fs with ⟨r, fs1⟩
  cases r <;> simp [installGo, h]

/-- Processing a run segment whose actions all try_execute successfully and
whose polls all find an empty open channel marks those actions Completed
and continues; the segment contributes its polls and executions to the
trace. -/
theorem installGo_append (env : Env) (meta : PlanMeta) (hasCh : Bool)
    (pre : List StatefulAction) (rest done : List StatefulAction) (fs : Fs)
    (h1 : ∀ a ∈ pre, execSucceeds a)
    (h2 : hasCh = true → ∀ i, i < pre.length → env.polls (done.length + i) = .empty) :
    installGo env meta hasCh done (pre ++ rest) fs =
      { installGo env meta hasCh (done ++ pre.map executed) rest fs with
        trace := stepTrace hasCh done.length pre.length ++
          (installGo env meta hasCh (done ++ pre.map executed) rest fs).trace } := by
  induction pre generalizing done with
  | nil => simp [stepTrace]
  | cons a pre ih =>
    have ha : execSucceeds a := h1 a (by simp)
    have hpoll : ¬ (hasCh = true ∧ env.polls done.length ≠ .empty) := by
      rintro ⟨hc, hne⟩
      exact hne (by simpa using h2 hc 0 (by simp))
    rw [List.cons_append]
    rw [show installGo env meta hasCh done (a :: (pre ++ rest)) fs =
      { installGo env meta hasCh (done ++ [executed a]) (pre ++ rest) fs with
        trace := (if hasCh then [Event.poll done.length] else []) ++
          Event.exec done.length ::
            (installGo env meta hasCh (done ++ [executed a]) (pre ++ rest) fs).trace }
      from by simp [installGo, hpoll, tryExecute_eq_of_succeeds a ha]]
    rw [ih (done ++ [executed a]) (fun b hb => h1 b (by simp [hb]))
      (fun hc i hi => by
        have := h2 hc (i + 1) (by simpa using Nat.succ_lt_succ hi)
        simpa [Nat.add_assoc, Nat.add_comm 1 i] using this)]
    simp [stepTrace, List.append_assoc]

/-- Walking the whole reversed list without a cancel channel: every action
is visited, errors are collected in visit order, the filesystem is never
touched, and the result aggregates the collected errors. -/
theorem uninstallGo_noChannel (env : Env) (meta : PlanMeta)
    (revRest done : List StatefulAction) (errors : List Nat) (fs : Fs) :
    uninstallGo env meta false revRest done errors fs =
      ⟨if (errors ++ collectRevertErrors revRest).isEmpty then .ok ()
        else .error (.ActionRevert (errors ++ collectRevertErrors revRest)),
       revRest.reverse.map reverted ++ done, fs,
       (List.range revRest.length).reverse.map Event.revert⟩ := by
  induction revRest generalizing done errors with
  | nil =>
    simp only [uninstallGo, collectRevertErrors, List.filterMap_nil,
      List.append_nil, List.isEmpty_eq_true, List.range_zero,
      List.reverse_nil, List.map_nil, List.reverse_nil, List.nil_append]
    split <;> rfl
  | cons a rr ih =>
    rcases h : tryRevert a with ⟨res, a1⟩
    have hrev : reverted a = a1 := by simp [reverted, h]
    cases res with
    | none =>
      rw [show uninstallGo env meta false (a :: rr) done errors fs =
        { uninstallGo env meta false rr (a1 :: done) errors fs with
          trace := Event.revert rr.length ::
            (uninstallGo env meta false rr (a1 :: done) errors fs).trace }
        from by simp [uninstallGo, h]]
      rw [ih]
      have hcoll : collectRevertErrors (a :: rr) = collectRevertErrors rr := by
        simp [collectRevertErrors, h]
      simp [hcoll, hrev.symm, List.range_succ, List.append_assoc]
    | some e =>
      rw [show uninstallGo env meta false (a :: rr) done errors fs =
        { uninstallGo env meta false rr (a1 :: done) (errors ++ [e]) fs with
          trace := Event.revert rr.length ::
            (uninstallGo env meta false rr (a1 :: done) (errors ++ [e]) fs).trace }
        from by simp [uninstallGo, h]]
      rw [ih]
      have hcoll : collectRevertErrors (a :: rr) = e :: collectRevertErrors rr := by
        simp [collectRevertErrors, h]
      simp [hcoll, hrev.symm, List.range_succ, List.append_assoc]

@[simp]
theorem execIndices_nil : execIndices [] = [] := rfl

@[simp]
theorem execIndices_cons_poll (i : Nat) (l : List Event) :
    execIndices (.poll i :: l) = execIndices l := rfl

@[simp]
theorem execIndices_cons_exec (i : Nat) (l : List Event) :
    execIndices (.exec i :: l) = i :: execIndices l := rfl

@[simp]
theorem execIndices_cons_revert (i : Nat) (l : List Event) :
    execIndices (.revert i :: l) = execIndices l := rfl

@[simp]
theorem execIndices_append (l1 l2 : List Event) :
    execIndices (l1 ++ l2) = execIndices l1 ++ execIndices l2 :=
  List.filterMap_append l1 l2 _

@[simp]
theorem revertIndices_nil : revertIndices [] = [] := rfl

@[simp]
theorem revertIndices_cons_poll (i : Nat) (l : List Event) :
    revertIndices (.poll i :: l) = revertIndices l := rfl

@[simp]
theorem revertIndices_cons_exec (i : Nat) (l : List Event) :
    revertIndices (.exec i :: l) = revertIndices l := rfl

@[simp]
theorem revertIndices_cons_revert (i : Nat) (l : List Event) :
    revertIndices (.revert i :: l) = i :: revertIndices l := rfl

@[simp]
theorem revertIndices_append (l1 l2 : List Event) :
    revertIndices (l1 ++ l2) = revertIndices l1 ++ revertIndices l2 :=
  List.filterMap_append l1 l2 _

/-- Whatever the environment does, install records its try_execute
invocations at consecutive increasing indices starting at the first
unprocessed one. -/
theorem execIndices_installGo (env : Env) (meta : PlanMeta) (hasCh : Bool) :
    ∀ (rest done : List StatefulAction) (fs : Fs),
      ∃ m, m ≤ rest.length ∧
        execIndices (installGo env meta hasCh done rest fs).trace =
          List.range' done.length m := by
  intro rest
  induction rest with
  | nil =>
    intro done fs
    exact ⟨0, Nat.le_refl 0, by rw [installGo_nil]; simp⟩
  | cons a rest ih =>
    intro done fs
    by_cases hc : hasCh = true ∧ env.polls done.length ≠ .empty
    · exact ⟨0, Nat.zero_le _, by simp [installGo, hc]⟩
    · have hpoll : hasCh = true → env.polls done.length = .empty := fun hch => by
        by_contra hne; exact hc ⟨hch, hne⟩
      rcases h : tryExecute a with ⟨res, a1⟩
      cases res with
      | some e =>
        refine ⟨1, by simp, ?_⟩
        cases hch : hasCh with
        | false => simp [installGo, hch, h]
        | true => simp [installGo, hch, hpoll hch, h]
      | none =>
        obtain ⟨m, hm, he⟩ := ih (done ++ [a1]) fs
        refine ⟨m + 1, by simpa using Nat.succ_le_succ hm, ?_⟩
        simp only [List.length_append, List.length_cons, List.length_nil,
          Nat.add_zero] at he
        cases hch : hasCh with
        | false =>
          simp only [hch] at he
          simp [installGo, hch, h, List.range'_succ, he]
        | true =>
          simp only [hch] at he
          simp [installGo, hch, hpoll hch, h, List.range'_succ, he]

/-- Whatever the environment does, uninstall records its try_revert
invocations in strictly decreasing index order from the top of the
remaining segment. -/
theorem revertIndices_uninstallGo (env : Env) (meta : PlanMeta) (hasCh : Bool) :
    ∀ (revRest done : List StatefulAction) (errors : List Nat) (fs : Fs),
      ∃ m, revertIndices (uninstallGo env meta hasCh revRest done errors fs).trace =
        ((List.range revRest.length).reverse).take m := by
  intro revRest
  induction revRest with
  | nil =>
    intro done errors fs
    exact ⟨0, by cases h : errors.isEmpty <;> simp [uninstallGo, h]⟩
  | cons a rr ih =>
    intro done errors fs
    by_cases hc : hasCh = true ∧ env.polls done.length ≠ .empty
    · exact ⟨0, by simp [uninstallGo, hc]⟩
    · have hpoll : hasCh = true → env.polls done.length = .empty := fun hch => by
        by_contra hne; exact hc ⟨hch, hne⟩
      rcases h : tryRevert a with ⟨res, a1⟩
      cases res with
      | none =>
        obtain ⟨m, hm⟩ := ih (a1 :: done) errors fs
        refine ⟨m + 1, ?_⟩
        cases hch : hasCh with
        | false =>
          simp only [hch] at hm
          simp [uninstallGo, hch, h, List.range_succ, hm]
        | true =>
          simp only [hch] at hm
          simp [uninstallGo, hch, hpoll hch, h, List.range_succ, hm]
      | some e =>
        obtain ⟨m, hm⟩ := ih (a1 :: done) (errors ++ [e]) fs
        refine ⟨m + 1, ?_⟩
        cases hch : hasCh with
        | false =>
          simp only [hch] at hm
          simp [uninstallGo, hch, h, List.range_succ, hm]
        | true =>
          simp only [hch] at hm
          simp [uninstallGo, hch, hpoll hch, h, List.range_succ, hm]

theorem write_receipt_ok (env : Env) (plan : InstallPlan) (fs : Fs)
    (hdir : env.createDirOutcome = none) (hw : env.writeOutcome = none) :
    write_receipt env plan fs =
      (.ok (), ⟨true, some (serializePlan plan ++ "\n")⟩) := by
  simp [write_receipt, hdir, hw]

theorem write_receipt_fail (env : Env) (plan : InstallPlan) (fs : Fs) (e : Nat)
    (hdir : env.createDirOutcome = none) (hw : env.writeOutcome = some e) :
    write_receipt env plan fs =
      (.error (.RecordingReceipt RECEIPT_LOCATION e),
        { fs with nixDirExists := true }) := by
  simp [write_receipt, hdir, hw]

/-- C3: when try_execute first fails at index k (no cancel channel, and a
filesystem on which the checkpoint write succeeds), install returns the
error wrapped in Action; the actions before k are Completed, action k
keeps exactly the state it had when its try_execute was called, the
actions after k are untouched, and the receipt written to disk encodes the
plan with exactly this distribution of states. -/
theorem install_failure_at_k (env : Env) (plan : InstallPlan) (fs : Fs)
    (pre post : List StatefulAction) (b : StatefulAction) (e : Nat)
    (hsplit : plan.actions = pre ++ b :: post)
    (hpre : ∀ a ∈ pre, execSucceeds a)
    (hb : b.state ≠ .Completed)
    (hbe : b.action.executeOutcome = some e)
    (hdir : env.createDirOutcome = none)
    (hw : env.writeOutcome = none) :
    install env plan false fs =
      ⟨.error (.Action e), pre.map executed ++ b :: post,
       ⟨true, some (serializePlan
         (plan.toPlanMeta.withActions (pre.map executed ++ b :: post)) ++ "\n")⟩,
       stepTrace false 0 pre.length ++ [Event.exec pre.length]⟩ := by
  unfold install
  rw [hsplit]
  rw [installGo_append env plan.toPlanMeta false pre (b :: post) [] fs hpre
    (fun hcc => nomatch hcc)]
  simp [installGo, tryExecute_eq_of_fails b e hb hbe,
    write_receipt_ok env _ fs hdir hw]

/-- C5: with a cancel channel that reads empty before each of the first k
actions and non-empty at the k-th probe, install executes exactly the
first k actions (polling before each of them and at no other moment),
checkpoints a receipt recording the current states — the first k actions
Completed, the rest untouched — and returns Cancelled. -/
theorem install_cancelled_at_k (env : Env) (plan : InstallPlan) (fs : Fs)
    (pre post : List StatefulAction) (b : StatefulAction)
    (hsplit : plan.actions = pre ++ b :: post)
    (hpre : ∀ a ∈ pre, execSucceeds a)
    (hpolls : ∀ i, i < pre.length → env.polls i = .empty)
    (hk : env.polls pre.length ≠ .empty)
    (hdir : env.createDirOutcome = none)
    (hw : env.writeOutcome = none) :
    install env plan true fs =
      ⟨.error .Cancelled, pre.map executed ++ b :: post,
       ⟨true, some (serializePlan
         (plan.toPlanMeta.withActions (pre.map executed ++ b :: post)) ++ "\n")⟩,
       stepTrace true 0 pre.length ++ [Event.poll pre.length]⟩ := by
  unfold install
  rw [hsplit]
  rw [installGo_append env plan.toPlanMeta true pre (b :: post) [] fs hpre
    (fun _ i hi => by simpa using hpolls i hi)]
  simp [installGo, hk, write_receipt_ok env _ fs hdir hw]

/-- C7: installing a plan with no actions (no cancel channel, writable
filesystem) invokes no action, returns Ok, ensures the /nix directory
exists and leaves at the receipt location exactly the pretty-printed
encoding of the plan followed by one newline. -/
theorem install_empty_plan (env : Env) (plan : InstallPlan) (fs : Fs)
    (hempty : plan.actions = [])
    (hdir : env.createDirOutcome = none)
    (hw : env.writeOutcome = none) :
    install env plan false fs =
      ⟨.ok (), [], ⟨true, some (serializePlan plan ++ "\n")⟩, []⟩ := by
  have hplan : plan.toPlanMeta.withActions [] = plan := by
    rcases plan with ⟨m, as⟩
    have h2 : as = [] := hempty
    subst h2
    rfl
  unfold install
  rw [hempty, installGo_nil, write_receipt_ok env _ fs hdir hw, hplan]

/-- C10: when every action try_executes successfully but the final receipt
write fails, install returns the RecordingReceipt error — not Ok — even
though every action is left Completed; no receipt reaches the disk. -/
theorem install_success_receipt_failure (env : Env) (plan : InstallPlan)
    (fs : Fs) (e : Nat)
    (hall : ∀ a ∈ plan.actions, execSucceeds a)
    (hdir : env.createDirOutcome = none)
    (hw : env.writeOutcome = some e) :
    install env plan false fs =
      ⟨.error (.RecordingReceipt RECEIPT_LOCATION e), plan.actions.map executed,
       { fs with nixDirExists := true }, stepTrace false 0 plan.actions.length⟩ := by
  have H := installGo_append env plan.toPlanMeta false plan.actions [] [] fs hall
    (fun hcc => nomatch hcc)
  rw [List.append_nil] at H
  unfold install
  rw [H, installGo_nil, write_receipt_fail env _ fs e hdir hw]
  simp

/-- C4: absent cancellation, uninstall invokes try_revert on every action,
walking the list in reverse; each failure is appended to the error list and
the walk continues; the run returns Ok exactly when the collected list is
empty and ActionRevert carrying the full list otherwise.  (The filesystem
is untouched: this loop writes no receipt.) -/
theorem uninstall_aggregates_errors (env : Env) (plan : InstallPlan) (fs : Fs) :
    uninstall env plan false fs =
      ⟨if (collectRevertErrors plan.actions.reverse).isEmpty then .ok ()
        else .error (.ActionRevert (collectRevertErrors plan.actions.reverse)),
       plan.actions.map reverted, fs,
       (List.range plan.actions.length).reverse.map Event.revert⟩ := by
  unfold uninstall
  rw [uninstallGo_noChannel]
  simp

/-- The environment whose polls always find an empty open channel and whose
filesystem operations succeed. -/
def env0 : Env := ⟨fun _ => .empty, none, none⟩

/-- A concrete one-action plan: its single action is Completed and its
underlying revert fails with error 7. -/
def planRevertFails : InstallPlan :=
  ⟨⟨⟨1, 0, 0, []⟩, "linux", [], []⟩,
    [⟨⟨"Start systemd unit", [], [], none, some 7⟩, .Completed⟩]⟩

/-- C2 counterexample: uninstall can return an error with no receipt having
been written.  On a one-action plan whose revert fails, uninstall returns
ActionRevert yet the filesystem still holds no receipt — the uninstall
error path performs no receipt write. -/
theorem uninstall_error_without_receipt :
    (uninstall env0 planRevertFails false ⟨false, none⟩).result =
        .error (.ActionRevert [7]) ∧
      (uninstall env0 planRevertFails false ⟨false, none⟩).fs.receipt = none := by
  constructor <;> rfl

/-- C2 amended: install writes a receipt before returning an action
failure, and a failure of that very write is swallowed (logged), the
original Action error still being returned — the conclusion here holds for
every environment, including ones whose receipt writes fail; uninstall, by
contrast, writes no receipt at all outside its cancellation branch, so its
ActionRevert error path leaves the filesystem untouched. -/
theorem receipt_discipline (env : Env) (plan : InstallPlan) (fs : Fs)
    (pre post : List StatefulAction) (b : StatefulAction) (e : Nat)
    (hsplit : plan.actions = pre ++ b :: post)
    (hpre : ∀ a ∈ pre, execSucceeds a)
    (hb : b.state ≠ .Completed)
    (hbe : b.action.executeOutcome = some e) :
    (install env plan false fs).result = .error (.Action e) ∧
      (uninstall env plan false fs).fs = fs := by
  constructor
  · unfold install
    rw [hsplit]
    rw [installGo_append env plan.toPlanMeta false pre (b :: post) [] fs hpre
      (fun hcc => nomatch hcc)]
    simp [installGo, tryExecute_eq_of_fails b e hb hbe]
  · unfold uninstall
    rw [uninstallGo_noChannel]

/-- C9: with a cancel channel present, any first poll outcome other than an
empty open channel — a delivered value, but also a closed channel or a
lagged receiver — makes install and uninstall return Cancelled before
touching any action. -/
theorem cancel_on_any_poll_outcome (env : Env) (plan : InstallPlan) (fs : Fs)
    (hne : plan.actions ≠ [])
    (hp : env.polls 0 ≠ .empty) :
    (install env plan true fs).result = .error .Cancelled ∧
      (uninstall env plan true fs).result = .error .Cancelled := by
  constructor
  · unfold install
    cases h : plan.actions with
    | nil => exact absurd h hne
    | cons a rest => simp [installGo, hp]
  · unfold uninstall
    cases h : plan.actions.reverse with
    | nil => exact absurd (List.reverse_eq_nil_iff.mp h) hne
    | cons b rr => simp [uninstallGo, hp]

/-- C6: install records its try_execute invocations at the indices
0, 1, ..., m-1 in increasing order (m depending on where the run stops);
uninstall records its try_revert invocations as a prefix of
n-1, n-2, ..., 0, in strictly decreasing order; and describe_uninstall
renders the revert descriptions of the actions in reverse index order. -/
theorem visit_order (env : Env) (plan : InstallPlan) (hasCh : Bool) (fs : Fs)
    (explain : Bool) :
    (∃ m, m ≤ plan.actions.length ∧
      execIndices (install env plan hasCh fs).trace = List.range m) ∧
    (∃ m, revertIndices (uninstall env plan hasCh fs).trace =
      ((List.range plan.actions.length).reverse).take m) ∧
    describe_uninstall plan explain =
      (let lines := sortedSettingLines
        (if explain then plan.plannerSettings else plan.plannerConfigured)
      "Nix uninstall plan (v" ++ versionToString plan.version ++ ")\n\n" ++
        "Planner: " ++ plan.plannerTag ++
        (if lines.isEmpty then " (with default settings)" else "") ++ "\n\n" ++
        (if lines.isEmpty then ""
         else "Configured settings:\n" ++ String.intercalate "\n" lines ++ "\n\n") ++
        "Planned actions:\n" ++
        renderActions explain
          ((plan.actions.map (fun a => a.action.describe_revert)).reverse).flatten ++
        "\n") := by
  refine ⟨?_, ?_, ?_⟩
  · obtain ⟨m, hm, he⟩ := execIndices_installGo env plan.toPlanMeta hasCh
      plan.actions [] fs
    exact ⟨m, hm, by
      rw [List.range_eq_range' m]
      simpa using he⟩
  · obtain ⟨m, hm⟩ := revertIndices_uninstallGo env plan.toPlanMeta hasCh
      plan.actions.reverse [] [] fs
    exact ⟨m, by simpa using hm⟩
  · simp [describe_uninstall, List.map_reverse]

theorem ensure_version_isOk (a b : Version) :
    (ensure_version a b).isOk = true ↔ reqMatches matchesCaret b a = true := by
  unfold ensure_version
  split <;> simp_all [Except.isOk, Except.toBool]

/-- C1 counterexample: engine version 1.0.1 accepts a plan stamped 1.0.0
although the two versions differ.  The requirement the reader parses from
the rendered plan version carries the semver default (caret) operator, not
the exact operator the spec describes; the spec-modelled exact gate rejects
the same pair. -/
theorem version_gate_not_exact :
    ensure_version ⟨1, 0, 1, []⟩ ⟨1, 0, 0, []⟩ = .ok ⟨1, 0, 0, []⟩ ∧
      (⟨1, 0, 1, []⟩ : Version) ≠ ⟨1, 0, 0, []⟩ ∧
      (spec_ensure_version ⟨1, 0, 1, []⟩ ⟨1, 0, 0, []⟩).isOk = false := by
  refine ⟨rfl, by decide, rfl⟩

/-- C1 amended: what the deserialization gate actually accepts.  For
pre-release-free versions, the caret requirement parsed from the plan
version accepts the engine version iff the majors agree and, for a
positive major, the engine's (minor, patch) is not below the plan's; for
major 0 with positive minor, the minors agree and the patch is not below;
for 0.0.z only the identical version.  So a receipt written by engine X is
readable by every caret-compatible engine, not only by X itself. -/
theorem ensure_version_caret_semantics (e p : Version)
    (he : e.pre = []) (hp : p.pre = []) :
    ((ensure_version e p).isOk = true ↔
      (e.major = p.major ∧
        (if 0 < p.major then
          p.minor < e.minor ∨ (e.minor = p.minor ∧ p.patch ≤ e.patch)
        else if 0 < p.minor then
          e.minor = p.minor ∧ p.patch ≤ e.patch
        else e.minor = p.minor ∧ e.patch = p.patch))) := by
  rcases e with ⟨emj, emn, epa, epre⟩
  rcases p with ⟨pmj, pmn, ppa, ppre⟩
  have he2 : epre = [] := he
  have hp2 : ppre = [] := hp
  subst he2
  subst hp2
  rw [ensure_version_isOk]
  simp only [reqMatches, matchesCaret, preComp]
  simp only [List.isEmpty_nil, Bool.or_true, Bool.and_true]
  split_ifs <;> simp_all <;> omega

theorem ensure_version_caret_semantics_witness :
    (ensure_version ⟨1, 2, 3, []⟩ ⟨1, 2, 0, []⟩).isOk = true :=
  (ensure_version_caret_semantics ⟨1, 2, 3, []⟩ ⟨1, 2, 0, []⟩ rfl rfl).mpr
    (by norm_num)

/-- The escape character opening and closing the bold styling. -/
def escChar : Char := '\x1b'

theorem lex_append_left_iff (c l1 l2 : List Char) :
    List.Lex (· < ·) (c ++ l1) (c ++ l2) ↔ List.Lex (· < ·) l1 l2 := by
  induction c with
  | nil => simp
  | cons a c ih => simpa [List.Lex.cons_iff] using ih

theorem lex_extend_key (c : Char) {k1 k2 : List Char} (m1 m2 : List Char)
    (h : List.Lex (· < ·) k1 k2) (hc : ∀ d ∈ k2, c < d) :
    List.Lex (· < ·) (k1 ++ c :: m1) (k2 ++ c :: m2) := by
  induction h with
  | @nil a l =>
    exact List.Lex.rel (hc _ (by simp))
  | @cons a l1 l2 h ih =>
    exact List.Lex.cons (ih (fun d hd => hc d (by simp [hd])))
  | @rel a1 l1 a2 l2 h =>
    exact List.Lex.rel h

theorem settingLine_toList (k v : String) :
    (settingLine (k, v)).toList =
      ['*', ' ', escChar, '[', '1', 'm'] ++
        (k.toList ++ (escChar :: (['[', '0', 'm', ':', ' '] ++ v.toList))) := by
  have e1 : ("* " : String).toList = ['*', ' '] := rfl
  have e2 : ("\x1b[1m" : String).toList = [escChar, '[', '1', 'm'] := rfl
  have e3 : ("\x1b[0m" : String).toList = [escChar, '[', '0', 'm'] := rfl
  have e4 : (": " : String).toList = [':', ' '] := rfl
  simp [settingLine, boldStr, e1, e2, e3, e4, escChar]

theorem settingLine_lt_of_key_lt (k1 v1 k2 v2 : String)
    (h2 : ∀ d ∈ k2.toList, escChar < d) (hk : k1 < k2) :
    settingLine (k1, v1) < settingLine (k2, v2) := by
  rw [String.lt_iff_toList_lt, settingLine_toList, settingLine_toList]
  show List.Lex (· < ·) _ _
  apply List.Lex.append_left
  exact lex_extend_key escChar _ _ (String.lt_iff_toList_lt.mp hk) h2

theorem settingLine_lt_of_val_lt (k v1 v2 : String) (hv : v1 < v2) :
    settingLine (k, v1) < settingLine (k, v2) := by
  rw [String.lt_iff_toList_lt, settingLine_toList, settingLine_toList]
  show List.Lex (· < ·) _ _
  apply List.Lex.append_left
  apply List.Lex.append_left
  apply List.Lex.cons
  apply List.Lex.append_left
  exact String.lt_iff_toList_lt.mp hv

/-- The rendered-line order agrees with key order (ties broken by value
order) whenever the keys contain only characters above the escape
character. -/
theorem settingLine_lt_iff (kv1 kv2 : String × String)
    (h1 : ∀ d ∈ kv1.1.toList, escChar < d)
    (h2 : ∀ d ∈ kv2.1.toList, escChar < d) :
    (settingLine kv1 < settingLine kv2 ↔
      (kv1.1 < kv2.1 ∨ (kv1.1 = kv2.1 ∧ kv1.2 < kv2.2))) := by
  rcases kv1 with ⟨k1, v1⟩
  rcases kv2 with ⟨k2, v2⟩
  simp only at h1 h2 ⊢
  constructor
  · intro h
    rcases lt_trichotomy k1 k2 with hk | hk | hk
    · exact Or.inl hk
    · subst hk
      refine Or.inr ⟨rfl, ?_⟩
      rw [String.lt_iff_toList_lt, settingLine_toList, settingLine_toList] at h
      replace h := (lex_append_left_iff _ _ _).mp h
      replace h := (lex_append_left_iff k1.toList _ _).mp h
      replace h := List.Lex.cons_iff.mp h
      replace h := (lex_append_left_iff _ _ _).mp h
      rw [String.lt_iff_toList_lt]
      exact h
    · exact absurd h (lt_asymm (settingLine_lt_of_key_lt k2 v2 k1 v1 h1 hk))
  · rintro (hk | ⟨hk, hv⟩)
    · exact settingLine_lt_of_key_lt k1 v1 k2 v2 h2 hk
    · subst hk
      exact settingLine_lt_of_val_lt k1 v1 v2 hv

/-- The settings list describe_install renders: every planner setting in
explain mode, only the user-configured ones otherwise. -/
def plannerSettingsOf (plan : InstallPlan) (explain : Bool) : List (String × String) :=
  if explain then plan.plannerSettings else plan.plannerConfigured

/-- C8 amended: describe_install renders one star-key-colon-value line per
setting (key wrapped in bold styling) and sorts the rendered lines
lexicographically as whole strings — an order that coincides with ordering
by key (ties broken by value) whenever keys contain only characters above
the escape character; exactly when no settings are rendered, the header
gains the literal suffix ` (with default settings)` and the settings block
is omitted. -/
theorem describe_install_settings_rendering (plan : InstallPlan) (explain : Bool)
    (hkeys : ∀ kv ∈ plannerSettingsOf plan explain, ∀ d ∈ kv.1.toList, escChar < d) :
    (sortedSettingLines (plannerSettingsOf plan explain)).Perm
        ((plannerSettingsOf plan explain).map settingLine) ∧
    List.Sorted (· ≤ ·) (sortedSettingLines (plannerSettingsOf plan explain)) ∧
    (∀ kv1 ∈ plannerSettingsOf plan explain, ∀ kv2 ∈ plannerSettingsOf plan explain,
      (settingLine kv1 < settingLine kv2 ↔
        (kv1.1 < kv2.1 ∨ (kv1.1 = kv2.1 ∧ kv1.2 < kv2.2)))) ∧
    (plannerSettingsOf plan explain = [] →
      describe_install plan explain =
        "Nix install plan (v" ++ versionToString plan.version ++ ")\n" ++
          "Planner: " ++ plan.plannerTag ++ " (with default settings)" ++ "\n\n" ++
          "Planned actions:\n" ++
          renderActions explain
            (plan.actions.map (fun a => a.action.describe_execute)).flatten ++ "\n") ∧
    (plannerSettingsOf plan explain ≠ [] →
      describe_install plan explain =
        "Nix install plan (v" ++ versionToString plan.version ++ ")\n" ++
          "Planner: " ++ plan.plannerTag ++ "\n\n" ++
          "Configured settings:\n" ++
          String.intercalate "\n"
            (sortedSettingLines (plannerSettingsOf plan explain)) ++ "\n\n" ++
          "Planned actions:\n" ++
          renderActions explain
            (plan.actions.map (fun a => a.action.describe_execute)).flatten ++ "\n") := by
  refine ⟨List.perm_insertionSort _ _, List.sorted_insertionSort _ _,
    fun kv1 hm1 kv2 hm2 => settingLine_lt_iff kv1 kv2 (hkeys kv1 hm1) (hkeys kv2 hm2),
    ?_, ?_⟩
  · intro hS
    have hS' : (if explain then plan.plannerSettings else plan.plannerConfigured) = [] := hS
    simp [describe_install, hS', sortedSettingLines, List.insertionSort]
  · intro hS
    have hne : sortedSettingLines (plannerSettingsOf plan explain) ≠ [] := by
      intro h0
      apply hS
      have hp := List.perm_insertionSort (α := String) (· ≤ ·)
        ((plannerSettingsOf plan explain).map settingLine)
      rw [show List.insertionSort (α := String) (· ≤ ·)
          ((plannerSettingsOf plan explain).map settingLine) =
        sortedSettingLines (plannerSettingsOf plan explain) from rfl, h0] at hp
      simpa using hp.symm.eq_nil
    have hfalse : (sortedSettingLines (plannerSettingsOf plan explain)).isEmpty = false := by
      simpa [List.isEmpty_iff] using hne
    have hfalse' : (sortedSettingLines
        (if explain then plan.plannerSettings else plan.plannerConfigured)).isEmpty = false :=
      hfalse
    simp [describe_install, hfalse']
    simp [plannerSettingsOf, String.append_assoc]
    rw [← String.append_assoc ("\n\n" : String) "Configured settings:\n"]
    rfl

/-- A plan whose second configured setting key contains a control
character below the escape character. -/
def planNonPrintableKey : InstallPlan :=
  ⟨⟨⟨1, 0, 0, []⟩, "linux", [], [("a", "x"), ("a\x01", "y")]⟩, []⟩

/-- C8 counterexample: the code sorts the rendered lines as whole strings,
which is not sorting by key: here the key "a" is lexicographically smaller
than "a\x01", yet its line is rendered second, because the byte closing the
bold styling of "a" compares above the control character inside the other
key. -/
theorem settings_lines_not_sorted_by_key :
    describe_install planNonPrintableKey false =
      "Nix install plan (v1.0.0)\nPlanner: linux\n\n" ++
        "Configured settings:\n* \x1b[1ma\x01\x1b[0m: y\n* \x1b[1ma\x1b[0m: x\n\n" ++
        "Planned actions:\n\n" ∧
      ("a" : String) < "a\x01" := by
  constructor
  · have hlt : settingLine ("a\x01", "y") < settingLine ("a", "x") := by
      rw [String.lt_iff_toList_lt]
      decide
    have hnle : ¬ (settingLine ("a", "x") ≤ settingLine ("a\x01", "y")) :=
      not_le.mpr hlt
    simp [describe_install, planNonPrintableKey, sortedSettingLines,
      List.insertionSort, List.orderedInsert, hnle]
    rfl
  · rw [String.lt_iff_toList_lt]
    decide

/-- A plan with two configured settings with printable keys. -/
def planTwoSettings : InstallPlan :=
  ⟨⟨⟨1, 0, 0, []⟩, "linux", [], [("beta", "2"), ("alpha", "1")]⟩, []⟩

theorem describe_install_settings_rendering_witness :
    List.Sorted (· ≤ ·) (sortedSettingLines (plannerSettingsOf planTwoSettings false)) :=
  (describe_install_settings_rendering planTwoSettings false (by decide)).2.1

/-- A concrete action whose execute succeeds. -/
def okAction : StatefulAction :=
  ⟨⟨"Create directory", [], [], none, none⟩, .Uncompleted⟩

/-- A concrete action whose execute fails with error 3. -/
def failAction : StatefulAction :=
  ⟨⟨"Fetch nix", [], [], some 3, none⟩, .Uncompleted⟩

def planOkFail : InstallPlan :=
  ⟨⟨⟨0, 1, 0, []⟩, "linux", [], []⟩, [okAction, failAction]⟩

def planOneOk : InstallPlan := ⟨⟨⟨0, 1, 0, []⟩, "linux", [], []⟩, [okAction]⟩

def planEmptyActions : InstallPlan := ⟨⟨⟨0, 1, 0, []⟩, "linux", [], []⟩, []⟩

def envWriteFails : Env := ⟨fun _ => .empty, none, some 5⟩

def envCancelAt1 : Env := ⟨fun i => if i = 1 then .value else .empty, none, none⟩

def envClosed : Env := ⟨fun _ => .closed, none, none⟩

def fs0 : Fs := ⟨false, none⟩

theorem install_failure_at_k_witness :
    install env0 planOkFail false fs0 =
      ⟨.error (.Action 3), [okAction].map executed ++ failAction :: [],
       ⟨true, some (serializePlan
         (planOkFail.toPlanMeta.withActions
           ([okAction].map executed ++ failAction :: [])) ++ "\n")⟩,
       stepTrace false 0 [okAction].length ++ [Event.exec [okAction].length]⟩ :=
  install_failure_at_k env0 planOkFail fs0 [okAction] [] failAction 3 rfl
    (by decide) (by decide) rfl rfl rfl

theorem install_cancelled_at_k_witness :
    install envCancelAt1 planOkFail true fs0 =
      ⟨.error .Cancelled, [okAction].map executed ++ failAction :: [],
       ⟨true, some (serializePlan
         (planOkFail.toPlanMeta.withActions
           ([okAction].map executed ++ failAction :: [])) ++ "\n")⟩,
       stepTrace true 0 [okAction].length ++ [Event.poll [okAction].length]⟩ :=
  install_cancelled_at_k envCancelAt1 planOkFail fs0 [okAction] [] failAction rfl
    (by decide) (by decide) (by decide) rfl rfl

theorem install_empty_plan_witness :
    install env0 planEmptyActions false fs0 =
      ⟨.ok (), [], ⟨true, some (serializePlan planEmptyActions ++ "\n")⟩, []⟩ :=
  install_empty_plan env0 planEmptyActions fs0 rfl rfl rfl

theorem install_success_receipt_failure_witness :
    install envWriteFails planOneOk false fs0 =
      ⟨.error (.RecordingReceipt RECEIPT_LOCATION 5), planOneOk.actions.map executed,
       { fs0 with nixDirExists := true }, stepTrace false 0 planOneOk.actions.length⟩ :=
  install_success_receipt_failure envWriteFails planOneOk fs0 5 (by decide) rfl rfl

theorem receipt_discipline_witness :
    (install env0 planOkFail false fs0).result = .error (.Action 3) ∧
      (uninstall env0 planOkFail false fs0).fs = fs0 :=
  receipt_discipline env0 planOkFail fs0 [okAction] [] failAction 3 rfl
    (by decide) (by decide) rfl

theorem cancel_on_any_poll_outcome_witness :
    (install envClosed planOneOk true fs0).result = .error .Cancelled ∧
      (uninstall envClosed planOneOk true fs0).result = .error .Cancelled :=
  cancel_on_any_poll_outcome envClosed planOneOk fs0 (by decide) (by decide)

end NixInstaller
